import Mathlib

/-!
Verification of the move-orchestration core of a chessboard widget.

The development shallowly embeds the board-operations context
(`moveProgrammatically`, `onMove`, `isPromoting`, `findKing`,
`onSelectPiece`), the promotion-dialog context, and the undo operation of
the refs context.  The external chess-rules engine (chess.js) is modelled
as a black box: a record of operations over an abstract engine-state type,
each of which may either return a value or raise (`Except Unit`).
Side effects of the pipeline (move callback, board publication, square
highlighting, the engine calls themselves) are recorded in an event trace.
-/

namespace Chessboard

/-- Side to move, as reported by the engine (`'w' | 'b'`). -/
inductive Player where
  | w
  | b
deriving DecidableEq, Repr

/-- Piece symbols of the engine (`p n b r q k`). -/
inductive PieceSymbol where
  | p
  | n
  | b
  | r
  | q
  | k
deriving DecidableEq, Repr

/-- A piece as returned by `chess.get` / `chess.board`: color and type. -/
structure Piece where
  color : Player
  ptype : PieceSymbol
deriving DecidableEq, Repr

/-- A board square: file (0 = `'a'` … 7 = `'h'`) and rank (0 = rank 1 … 7 = rank 8). -/
structure Sq where
  file : Fin 8
  rank : Fin 8
deriving DecidableEq, Repr

/-- The board matrix as returned by `chess.board()`: rows from rank 8 down to
rank 1, each row from file a to file h, each cell an optional piece. -/
abbrev Board := List (List (Option Piece))

/-- The algebraic label of a square, e.g. `e4`. -/
def squareName (s : Sq) : String :=
  String.mk [Char.ofNat (97 + s.file.val), Char.ofNat (49 + s.rank.val)]

/-- The move object fields used by the pipeline: the fields fabricated by the
mock-move fallback of `moveProgrammatically` (real engine moves carry at
least these fields). -/
structure MoveObj where
  fromSq : Sq
  toSq : Sq
  promotion : Option PieceSymbol
  flags : String
  piece : PieceSymbol
  san : String
  lan : String
  before : String
  after : String
deriving DecidableEq, Repr

/-- The game-status snapshot produced by the `getChessboardState` helper
(spec §4.2 `statusSnapshot`). -/
structure ChessboardState where
  isCheck : Bool
  isCheckmate : Bool
  isDraw : Bool
  isStalemate : Bool
  isThreefoldRepetition : Bool
  isInsufficientMaterial : Bool
  isGameOver : Bool
  fen : String
deriving DecidableEq, Repr

def emptyStr : String := ""

/-- The all-false/empty snapshot substituted when `getChessboardState` fails
under `skipValidation` (source lines 194–203). -/
def defaultChessboardState : ChessboardState :=
  { isCheck := false, isCheckmate := false, isDraw := false,
    isStalemate := false, isThreefoldRepetition := false,
    isInsufficientMaterial := false, isGameOver := false, fen := emptyStr }

/-- Observable effects of the pipeline.  `applyMoveEv` and
`legalMovesQueryEv` are instrumentation: they record each invocation of
`chess.move` and `chess.moves` respectively. -/
inductive Event where
  | callbackEv (mv : MoveObj) (st : ChessboardState) (inPromotion : Bool)
  | publishEv (b : Board)
  | highlightEv (sq : Sq) (color : Option String)
  | resetHighlightsEv
  | enablePieceEv (sq : Sq) (enabled : Bool)
  | applyMoveEv (fromSq : Sq) (toSq : Sq) (promo : Option PieceSymbol)
  | legalMovesQueryEv (sq : Sq)
deriving DecidableEq, Repr

def isCallbackEv : Event → Bool
  | .callbackEv _ _ _ => true
  | _ => false

def isPublishEv : Event → Bool
  | .publishEv _ => true
  | _ => false

def isHighlightEv : Event → Bool
  | .highlightEv _ _ => true
  | _ => false

def isApplyMoveEv : Event → Bool
  | .applyMoveEv _ _ _ => true
  | _ => false

def isMovesQueryEv : Event → Bool
  | .legalMovesQueryEv _ => true
  | _ => false

def countCallbacks (l : List Event) : Nat := l.countP isCallbackEv

def countPublishes (l : List Event) : Nat := l.countP isPublishEv

def countHighlights (l : List Event) : Nat := l.countP isHighlightEv

def countApplyMoves (l : List Event) : Nat := l.countP isApplyMoveEv

def countMovesQueries (l : List Event) : Nat := l.countP isMovesQueryEv

/-- The external chess-rules engine (chess.js), modelled as a black box over
an abstract engine-state type `σ` (spec §4.2, §6).  Every operation may
either return a value or raise.  `moveFn` may also return `none` for a
null-returning rejection; on a raising `moveFn` the engine state is not
committed (a throwing `chess.move` does not mutate the position).
`stateFn` models the `getChessboardState` helper, a pure aggregation of
engine status queries. -/
structure Engine (σ : Type) where
  moveFn : σ → Sq → Sq → Option PieceSymbol → Except Unit (Option MoveObj × σ)
  turnFn : σ → Except Unit Player
  fenFn : σ → Except Unit String
  isCheckmateFn : σ → Except Unit Bool
  boardFn : σ → Except Unit Board
  getFn : σ → Sq → Except Unit (Option Piece)
  stateFn : σ → Except Unit ChessboardState
  undoFn : σ → Except Unit σ
  movesFn : σ → Sq → Except Unit (List String)

/-- Mutable state of the board-operations component: the engine handle, the
`turn` shared value, and the selection shared values. -/
structure PState (σ : Type) where
  engine : σ
  turnVal : Player
  selectableSquares : List String
  selectedSquare : Option Sq

/-- Result of a pipeline run: the component state after the run (mutations
made before an exception persist), the emitted events, and whether the run
terminated by propagating an exception. -/
structure MPResult (σ : Type) where
  state : PState σ
  events : List Event
  threw : Bool

/-- Promotion-dialog state (`BoardPromotionContextState`): active flag,
side to move, and the stored continuation. -/
structure DialogState (κ : Type) where
  isDialogActive : Bool
  dtype : Option Player
  onSelect : Option κ

/-- `showPromotionDialog`: unconditionally replaces the dialog state,
overwriting any pending request. -/
def showPromotionDialog (ty : Player) (k : κ) (_d : DialogState κ) :
    DialogState κ :=
  { isDialogActive := true, dtype := some ty, onSelect := some k }

/-- The provider's `onSelect`: invokes the held continuation (if any) with
the chosen piece and clears the dialog state.  The first component records
the single invocation that took place. -/
def dialogOnSelect (d : DialogState κ) (pc : PieceSymbol) :
    Option (κ × PieceSymbol) × DialogState κ :=
  (d.onSelect.map (fun k => (k, pc)),
   { isDialogActive := false, dtype := none, onSelect := none })

/-- The square label built by `findKing`'s loop from matrix indices `x`, `y`:
column character `97 + x`, row character `8 - y` (valid only when both land
inside the board; `chess.get` on an invalid label simply finds no piece). -/
def mkSquare (x y : Nat) : Option Sq :=
  if h : x < 8 ∧ y < 8 then some ⟨⟨x, h.1⟩, ⟨7 - y, by omega⟩⟩ else none

/-- The inner scan of `findKing`: walks the index pairs in loop order and
returns the first square whose `chess.get` result is a piece of the wanted
color with type king.  A raising `chess.get` propagates. -/
def scanFirst (E : Engine σ) (s : σ) (c : Player) :
    List (Nat × Nat) → Except Unit (Option Sq)
  | [] => .ok none
  | (x, y) :: rest =>
    match mkSquare x y with
    | none => scanFirst E s c rest
    | some sq =>
      match E.getFn s sq with
      | .error _ => .error ()
      | .ok none => scanFirst E s c rest
      | .ok (some pc) =>
        if pc.color = c ∧ pc.ptype = PieceSymbol.k then .ok (some sq)
        else scanFirst E s c rest

/-- The index pairs visited by `findKing`'s nested loops: `x` over the rows
of `chess.board()`, `y` over the cells of row `x` (a missing row is
skipped, mirroring the `!row` guard). -/
def boardIndices (b : Board) : List (Nat × Nat) :=
  (List.range b.length).flatMap fun x =>
    match b.get? x with
    | none => []
    | some row => (List.range row.length).map fun y => (x, y)

/-- Body of `findKing` before its catch: read the board matrix and scan. -/
def findKingBody (E : Engine σ) (s : σ) (c : Player) :
    Except Unit (Option Sq) :=
  match E.boardFn s with
  | .error _ => .error ()
  | .ok b => scanFirst E s c (boardIndices b)

/-- `findKing`: linear scan for the king of the given color, with the
surrounding try/catch — under `skipValidation` a failure yields `none`
(no king found), otherwise it rethrows. -/
def findKing (E : Engine σ) (skip : Bool) (s : σ) (c : Player) :
    Except Unit (Option Sq) :=
  match findKingBody E s c with
  | .ok r => .ok r
  | .error _ => if skip then .ok none else .error ()

/-- The mock move object fabricated when `chess.move` fails under
`skipValidation` (source lines 145–155): the requested from/to/promotion,
empty flags, pawn piece, placeholder SAN `from-to`, and the current FEN as
both `before` and `after`. -/
def mkMock (f t : Sq) (promo : Option PieceSymbol) (fs : String) : MoveObj :=
  { fromSq := f, toSq := t, promotion := promo, flags := emptyStr,
    piece := PieceSymbol.p,
    san := squareName f ++ "-" ++ squareName t,
    lan := squareName f ++ squareName t,
    before := fs, after := fs }

/-- Move acquisition of `moveProgrammatically` (source lines 133–163):
under `skipValidation` a raising `chess.move` is replaced by a mock move
built from the current FEN (whose own failure escapes to the outer catch);
without `skipValidation` the engine result is taken as is.  On a raising
`chess.move` the engine state is unchanged. -/
def stage1 (E : Engine σ) (skip : Bool) (s : σ) (f t : Sq)
    (promo : Option PieceSymbol) : Except Unit (Option MoveObj × σ) :=
  if skip then
    match E.moveFn s f t promo with
    | .ok r => .ok r
    | .error _ =>
      match E.fenFn s with
      | .ok fs => .ok (some (mkMock f t promo fs), s)
      | .error _ => .error ()
  else E.moveFn s f t promo

/-- Final stage: fire the external move callback, then publish the board
(source lines 209–222).  A raising `chess.board()` skips publication;
without `skipValidation` it escapes through the outer catch (the callback
has already fired). -/
def stage6 (E : Engine σ) (skip : Bool) (st : PState σ)
    (promo : Option PieceSymbol) (mv : MoveObj) (cs : ChessboardState) :
    MPResult σ :=
  match E.boardFn st.engine with
  | .ok b =>
    { state := st,
      events := [.callbackEv mv cs promo.isSome, .publishEv b],
      threw := false }
  | .error _ =>
    { state := st, events := [.callbackEv mv cs promo.isSome],
      threw := !skip }

/-- Status-snapshot stage (source lines 188–207): a raising
`getChessboardState` is replaced by the all-false snapshot under
`skipValidation` and rethrown otherwise. -/
def stage5 (E : Engine σ) (skip : Bool) (st : PState σ)
    (promo : Option PieceSymbol) (mv : MoveObj) : MPResult σ :=
  match E.stateFn st.engine with
  | .ok cs => stage6 E skip st promo mv cs
  | .error _ =>
    if skip then stage6 E skip st promo mv defaultChessboardState
    else { state := st, events := [], threw := true }

/-- Checkmate-highlight stage (source lines 182–186): query the side to
move (unguarded `chess.turn()`), locate its king, and highlight it; a
missing king aborts the rest of the pipeline silently. -/
def stageCk (E : Engine σ) (skip : Bool) (hl : String) (st : PState σ)
    (promo : Option PieceSymbol) (mv : MoveObj) : MPResult σ :=
  match E.turnFn st.engine with
  | .error _ => { state := st, events := [], threw := !skip }
  | .ok t2 =>
    match findKing E skip st.engine
        (if t2 = Player.b then Player.b else Player.w) with
    | .error _ => { state := st, events := [], threw := !skip }
    | .ok none => { state := st, events := [], threw := false }
    | .ok (some ksq) =>
      let r := stage5 E skip st promo mv
      { state := r.state,
        events := Event.highlightEv ksq (some hl) :: r.events,
        threw := r.threw }

/-- Null check and checkmate test (source lines 172–186): a `null` move
returns silently; a raising `chess.isCheckmate()` counts as no checkmate
under `skipValidation` and rethrows otherwise. -/
def stage3 (E : Engine σ) (skip : Bool) (hl : String) (st : PState σ)
    (promo : Option PieceSymbol) (mv? : Option MoveObj) : MPResult σ :=
  match mv? with
  | none => { state := st, events := [], threw := false }
  | some mv =>
    match E.isCheckmateFn st.engine with
    | .ok ck =>
      if ck then stageCk E skip hl st promo mv
      else stage5 E skip st promo mv
    | .error _ =>
      if skip then stage5 E skip st promo mv
      else { state := st, events := [], threw := true }

/-- Turn-indicator update (source lines 165–170): `turn.value :=
chess.turn()`; a failure keeps the current value under `skipValidation`
and rethrows otherwise.  The engine handle now points at the post-move
state `s1`. -/
def stage2 (E : Engine σ) (skip : Bool) (hl : String) (st : PState σ)
    (promo : Option PieceSymbol) (mv? : Option MoveObj) (s1 : σ) :
    MPResult σ :=
  match E.turnFn s1 with
  | .ok tv =>
    stage3 E skip hl
      { engine := s1, turnVal := tv,
        selectableSquares := st.selectableSquares,
        selectedSquare := st.selectedSquare } promo mv?
  | .error _ =>
    if skip then
      stage3 E skip hl
        { engine := s1, turnVal := st.turnVal,
          selectableSquares := st.selectableSquares,
          selectedSquare := st.selectedSquare } promo mv?
    else
      { state :=
          { engine := s1, turnVal := st.turnVal,
            selectableSquares := st.selectableSquares,
            selectedSquare := st.selectedSquare },
        events := [], threw := true }

/-- `moveProgrammatically` (source lines 128–229).  The whole body sits in
an outer try whose catch rethrows exactly when `skipValidation` is off.
Every invocation of `chess.move` is recorded as an `applyMoveEv`. -/
def moveProg (E : Engine σ) (skip : Bool) (hl : String) (st : PState σ)
    (f t : Sq) (promo : Option PieceSymbol) : MPResult σ :=
  match stage1 E skip st.engine f t promo with
  | .error _ =>
    { state := st, events := [.applyMoveEv f t promo], threw := !skip }
  | .ok (mv?, s1) =>
    let r := stage2 E skip hl st promo mv? s1
    { state := r.state, events := Event.applyMoveEv f t promo :: r.events,
      threw := r.threw }

/-- Modelled from the spec: `pixelOf` of the CoordinateMapper (the
repository's notation module, not under `src/`): top-left pixel of a
square, orientation-aware (spec §4.1) — for the white orientation file `a`
is the left column and rank 8 the top row; the flipped orientation mirrors
both axes. -/
def pixelOf (flipped : Bool) (size : Nat) (s : Sq) : Nat × Nat :=
  if flipped then ((7 - s.file.val) * size, s.rank.val * size)
  else (s.file.val * size, (7 - s.rank.val) * size)

/-- Modelled from the spec: `squareOf` of the CoordinateMapper (the
repository's notation module, not under `src/`): the square containing a
pixel, or `none` when the pixel falls outside the board bounds (spec §4.1:
never an error). -/
def squareOf (flipped : Bool) (size : Nat) (p : Nat × Nat) : Option Sq :=
  let xi := p.1 / size
  let yi := p.2 / size
  if h : xi < 8 ∧ yi < 8 then
    some (if flipped then
            ⟨⟨7 - xi, Nat.lt_succ_of_le (Nat.sub_le 7 xi)⟩, ⟨yi, h.2⟩⟩
          else
            ⟨⟨xi, h.1⟩, ⟨7 - yi, Nat.lt_succ_of_le (Nat.sub_le 7 yi)⟩⟩)
  else none

/-- Modelled from the spec: `toTranslation` of the notation module (not
under `src/`), as consumed by `isPromoting`: the unflipped pixel position,
consistent with the row-major indexing of `chess.board()` used right after
it. -/
def toTranslation (size : Nat) (s : Sq) : Nat × Nat :=
  pixelOf false size s

/-- The piece of the board matrix at a square: row `7 - rank` (rank 8 is
row 0), column `file`. -/
def boardPieceAt (b : Board) (s : Sq) : Option Piece :=
  (((b.get? (7 - s.rank.val)).bind fun row => row.get? s.file.val)).join

/-- `isPromoting` (source lines 71–95): early-out unless the target rank is
8 or 1; then locate the moving piece through `toTranslation` and the board
matrix and test for a pawn of the matching color.  A failure inside the
try resolves to `false` under `skipValidation` and rethrows otherwise. -/
def isPromoting (E : Engine σ) (skip : Bool) (pieceSize : Nat) (s : σ)
    (f t : Sq) : Except Unit Bool :=
  if ¬ t.rank.val = 7 ∧ ¬ t.rank.val = 0 then .ok false
  else
    match E.boardFn s with
    | .error _ => if skip then .ok false else .error ()
    | .ok b =>
      let v := toTranslation pieceSize f
      let x := v.1 / pieceSize
      let y := v.2 / pieceSize
      let piece := (((b.get? y).bind fun row => row.get? x)).join
      match piece with
      | none => .ok false
      | some pc =>
        .ok (decide (pc.ptype = PieceSymbol.p ∧
          ((t.rank.val = 7 ∧ pc.color = Player.w) ∨
           (t.rank.val = 0 ∧ pc.color = Player.b))))

/-- The continuation handed to the promotion dialog by `onMove` (source
lines 260–263): run `moveProgrammatically` with the chosen piece, then
re-enable the destination piece. -/
def Cont (σ : Type) := PieceSymbol → PState σ → MPResult σ

/-- Combined state of the board-operations component and the promotion
dialog. -/
structure CompState (σ : Type) where
  ps : PState σ
  dialog : DialogState (Cont σ)

/-- Result of `onMove`: new combined state, events, and whether an
exception escaped. -/
structure OMResult (σ : Type) where
  cs : CompState σ
  events : List Event
  threw : Bool

/-- `onMove` (source lines 242–276): clear the selection, reset and set the
last-move highlights, test for promotion; without promotion run
`moveProgrammatically` synchronously, with promotion disable the
destination piece and hand a continuation to the promotion dialog (the
unguarded `chess.turn()` supplies the dialog's side to move). -/
def onMove (E : Engine σ) (skip : Bool) (hl : String) (pieceSize : Nat)
    (c : CompState σ) (f t : Sq) : OMResult σ :=
  let ps0 : PState σ :=
    { engine := c.ps.engine, turnVal := c.ps.turnVal,
      selectableSquares := [], selectedSquare := none }
  let evs0 : List Event :=
    [.resetHighlightsEv, .highlightEv f none, .highlightEv t none]
  match isPromoting E skip pieceSize ps0.engine f t with
  | .error _ => { cs := { ps := ps0, dialog := c.dialog }, events := evs0,
                  threw := true }
  | .ok false =>
    let r := moveProg E skip hl ps0 f t none
    { cs := { ps := r.state, dialog := c.dialog },
      events := evs0 ++ r.events, threw := r.threw }
  | .ok true =>
    match E.turnFn ps0.engine with
    | .error _ =>
      { cs := { ps := ps0, dialog := c.dialog },
        events := evs0 ++ [.enablePieceEv t false], threw := true }
    | .ok ty =>
      { cs :=
          { ps := ps0,
            dialog := showPromotionDialog ty
              (fun chosen st =>
                let r := moveProg E skip hl st f t (some chosen)
                { state := r.state,
                  events := r.events ++ [.enablePieceEv t true],
                  threw := r.threw }) c.dialog },
        events := evs0 ++ [.enablePieceEv t false], threw := false }

/-- Result of resolving the promotion dialog. -/
structure RCResult (σ : Type) where
  cs : CompState σ
  events : List Event
  threw : Bool

/-- Resolving the promotion dialog with a piece: the provider's `onSelect`
invokes the held continuation (if any) on the current component state and
clears the dialog. -/
def resolveComp (c : CompState σ) (choice : PieceSymbol) : RCResult σ :=
  match dialogOnSelect c.dialog choice with
  | (none, d2) => { cs := { ps := c.ps, dialog := d2 }, events := [],
                    threw := false }
  | (some (k, pc), d2) =>
    let r := k pc c.ps
    { cs := { ps := r.state, dialog := d2 }, events := r.events,
      threw := r.threw }

def ooStr : String := "O-O"
def oooStr : String := "O-O-O"
def g1Str : String := "g1"
def g8Str : String := "g8"
def c1Str : String := "c1"
def c8Str : String := "c8"
def xStr : String := "x"

/-- The per-entry mapping applied to the raw `chess.moves` output (source
lines 299–328): castling notations become the king's destination square
(guarded `chess.turn()`), every other entry keeps the part after the last
`x`. -/
def mapSelectable (E : Engine σ) (s : σ) (sq : String) : String :=
  if sq = ooStr then
    match E.turnFn s with
    | .ok Player.w => g1Str
    | .ok Player.b => g8Str
    | .error _ => sq
  else if sq = oooStr then
    match E.turnFn s with
    | .ok Player.w => c1Str
    | .ok Player.b => c8Str
    | .error _ => sq
  else
    let parts := sq.splitOn xStr
    if parts.length = 0 then sq
    else (parts.getLast?).getD sq

/-- Result of `onSelectPiece`. -/
structure SPResult (σ : Type) where
  state : PState σ
  events : List Event

/-- `onSelectPiece` (source lines 278–331): record the selected square;
under `skipValidation` the valid-squares list is the empty list and the
engine is never queried, otherwise `chess.moves({square})` is consulted
(with a raising call defaulting to the empty list); the result is mapped
entrywise and stored. -/
def onSelectPiece (E : Engine σ) (skip : Bool) (st : PState σ) (sq : Sq) :
    SPResult σ :=
  if skip then
    { state :=
        { engine := st.engine, turnVal := st.turnVal,
          selectableSquares := ([] : List String).map
            (mapSelectable E st.engine),
          selectedSquare := some sq },
      events := [] }
  else
    match E.movesFn st.engine sq with
    | .ok vs =>
      { state :=
          { engine := st.engine, turnVal := st.turnVal,
            selectableSquares := vs.map (mapSelectable E st.engine),
            selectedSquare := some sq },
        events := [.legalMovesQueryEv sq] }
    | .error _ =>
      { state :=
          { engine := st.engine, turnVal := st.turnVal,
            selectableSquares := ([] : List String).map
              (mapSelectable E st.engine),
            selectedSquare := some sq },
        events := [.legalMovesQueryEv sq] }

/-- Result of the refs-context `undo` operation. -/
structure UndoResult (σ : Type) where
  engine : σ
  events : List Event
  threw : Bool

/-- `undo` of the refs context (source lines 465–473): `chess.undo()` then
publish `chess.board()`; any failure is swallowed under `skipValidation`
and rethrown otherwise. -/
def undoOp (E : Engine σ) (skip : Bool) (s : σ) : UndoResult σ :=
  match E.undoFn s with
  | .error _ => { engine := s, events := [], threw := !skip }
  | .ok s2 =>
    match E.boardFn s2 with
    | .ok b => { engine := s2, events := [.publishEv b], threw := false }
    | .error _ => { engine := s2, events := [], threw := !skip }

/-- Black-box behavioral facts about the chess.js engine assumed by the
spec (§4.2, §6): `fen`, `turn` and `get` are total queries of the current
position; `move` signals rejection by raising, never by returning `null`;
and a position the engine itself reports as checkmate is a well-formed
8×8 board containing the king of the side to move. -/
structure EngineCoherent (E : Engine σ) : Prop where
  fen_total : ∀ s, E.fenFn s ≠ .error ()
  turn_total : ∀ s, E.turnFn s ≠ .error ()
  get_total : ∀ s q, E.getFn s q ≠ .error ()
  move_not_null : ∀ s f t promo r, E.moveFn s f t promo = .ok r →
    r.1 ≠ none
  ck_board : ∀ s, E.isCheckmateFn s = .ok true →
    ∃ b, E.boardFn s = .ok b ∧ b.length = 8 ∧ ∀ row ∈ b, row.length = 8
  ck_king : ∀ s tv, E.isCheckmateFn s = .ok true → E.turnFn s = .ok tv →
    ∃ sq pc, E.getFn s sq = .ok (some pc) ∧ pc.color = tv ∧
      pc.ptype = PieceSymbol.k

section StageLemmas

variable {σ : Type}

lemma stage6_threw_skip (E : Engine σ) (st : PState σ)
    (promo : Option PieceSymbol) (mv : MoveObj) (cs : ChessboardState) :
    (stage6 E true st promo mv cs).threw = false := by
  cases h : E.boardFn st.engine <;> simp [stage6, h]

lemma stage5_threw_skip (E : Engine σ) (st : PState σ)
    (promo : Option PieceSymbol) (mv : MoveObj) :
    (stage5 E true st promo mv).threw = false := by
  cases h : E.stateFn st.engine <;>
    simp [stage5, h, stage6_threw_skip]

lemma stageCk_threw_skip (E : Engine σ) (hl : String) (st : PState σ)
    (promo : Option PieceSymbol) (mv : MoveObj) :
    (stageCk E true hl st promo mv).threw = false := by
  cases h : E.turnFn st.engine with
  | error e => simp [stageCk, h]
  | ok t2 =>
    cases h2 : findKing E true st.engine
        (if t2 = Player.b then Player.b else Player.w) with
    | error e => simp [stageCk, h, h2]
    | ok r =>
      cases r <;> simp [stageCk, h, h2, stage5_threw_skip]

lemma stage3_threw_skip (E : Engine σ) (hl : String) (st : PState σ)
    (promo : Option PieceSymbol) (mv? : Option MoveObj) :
    (stage3 E true hl st promo mv?).threw = false := by
  cases mv? with
  | none => simp [stage3]
  | some mv =>
    cases h : E.isCheckmateFn st.engine with
    | error e => simp [stage3, h, stage5_threw_skip]
    | ok ck =>
      cases ck <;>
        simp [stage3, h, stage5_threw_skip, stageCk_threw_skip]

lemma stage2_threw_skip (E : Engine σ) (hl : String) (st : PState σ)
    (promo : Option PieceSymbol) (mv? : Option MoveObj) (s1 : σ) :
    (stage2 E true hl st promo mv? s1).threw = false := by
  cases h : E.turnFn s1 <;> simp [stage2, h, stage3_threw_skip]

lemma moveProg_threw_skip (E : Engine σ) (hl : String) (st : PState σ)
    (f t : Sq) (promo : Option PieceSymbol) :
    (moveProg E true hl st f t promo).threw = false := by
  cases h : stage1 E true st.engine f t promo with
  | error e => simp [moveProg, h]
  | ok r => simp [moveProg, h, stage2_threw_skip]

lemma undoOp_threw_skip (E : Engine σ) (s : σ) :
    (undoOp E true s).threw = false := by
  cases h : E.undoFn s with
  | error e => simp [undoOp, h]
  | ok s2 => cases h2 : E.boardFn s2 <;> simp [undoOp, h, h2]

end StageLemmas

/-- Claim C7: In Permissive mode (skipValidation true), no public operation
ever propagates a failure to its caller: `moveProgrammatically` and `undo`
never throw, regardless of the engine's internal state, including after a
SyntheticMove fallback. -/
theorem c7_permissive_never_throws (σ : Type) (E : Engine σ) (hl : String)
    (st : PState σ) (f t : Sq) (promo : Option PieceSymbol) (s : σ) :
    (moveProg E true hl st f t promo).threw = false ∧
    (undoOp E true s).threw = false :=
  ⟨moveProg_threw_skip E hl st f t promo, undoOp_threw_skip E s⟩

/-- Claim C10: When skipValidation is true, `onSelectPiece` always sets the
selectable-squares list to the empty list, for every square and every
engine state, without ever querying the engine for legal moves. -/
theorem c10_skip_no_selectable (σ : Type) (E : Engine σ) (st : PState σ)
    (sq : Sq) :
    (onSelectPiece E true st sq).state.selectableSquares = [] ∧
    countMovesQueries (onSelectPiece E true st sq).events = 0 := by
  constructor <;> simp [onSelectPiece, countMovesQueries]

/-- Claim C8: The promotion coordinator holds at most one pending promotion:
a new `showPromotionDialog` overwrites any existing pending request (the
old continuation is dropped and cannot be the one invoked), and resolving
invokes the currently held continuation exactly once with the chosen piece
and clears the slot. -/
theorem c8_promotion_slot (κ : Type) (d : DialogState κ) (t1 t2 : Player)
    (k1 k2 : κ) (pc : PieceSymbol) :
    (showPromotionDialog t2 k2 (showPromotionDialog t1 k1 d)).onSelect =
      some k2 ∧
    (dialogOnSelect (showPromotionDialog t2 k2
        (showPromotionDialog t1 k1 d)) pc).1 = some (k2, pc) ∧
    (k1 ≠ k2 →
      (dialogOnSelect (showPromotionDialog t2 k2
          (showPromotionDialog t1 k1 d)) pc).1 ≠ some (k1, pc)) ∧
    (∀ (d2 : DialogState κ) (k : κ), d2.onSelect = some k →
      (dialogOnSelect d2 pc).1 = some (k, pc) ∧
      (dialogOnSelect d2 pc).2.onSelect = none ∧
      (dialogOnSelect d2 pc).2.isDialogActive = false) := by
  refine ⟨rfl, rfl, ?_, ?_⟩
  · intro hne hcontra
    simp [dialogOnSelect, showPromotionDialog] at hcontra
    exact hne hcontra.symm
  · intro d2 k hk
    simp [dialogOnSelect, hk]

/-- Claim C9: For every one of the 64 valid squares, the coordinate-mapper
round trip holds: `squareOf (pixelOf s) = s`, under either board
orientation. -/
theorem c9_roundtrip (flipped : Bool) (size : Nat) (s : Sq)
    (hsz : 0 < size) :
    squareOf flipped size (pixelOf flipped size s) = some s := by
  obtain ⟨⟨fv, hf⟩, ⟨rv, hr⟩⟩ := s
  cases flipped with
  | false =>
    have h1 : fv * size / size = fv := Nat.mul_div_cancel _ hsz
    have h2 : (7 - rv) * size / size = 7 - rv := Nat.mul_div_cancel _ hsz
    simp only [pixelOf, squareOf, Bool.false_eq_true, if_false]
    dsimp only
    rw [dif_pos ⟨by rw [h1]; exact hf,
      by rw [h2]; exact Nat.lt_succ_of_le (Nat.sub_le 7 rv)⟩]
    simp only [Bool.false_eq_true, if_false, Option.some.injEq, Sq.mk.injEq,
      Fin.mk.injEq]
    exact ⟨h1, by rw [h2]; omega⟩
  | true =>
    have h1 : (7 - fv) * size / size = 7 - fv := Nat.mul_div_cancel _ hsz
    have h2 : rv * size / size = rv := Nat.mul_div_cancel _ hsz
    simp only [pixelOf, squareOf, if_true]
    dsimp only
    rw [dif_pos ⟨by rw [h1]; exact Nat.lt_succ_of_le (Nat.sub_le 7 fv),
      by rw [h2]; exact hr⟩]
    simp only [if_true, Option.some.injEq, Sq.mk.injEq, Fin.mk.injEq]
    exact ⟨by rw [h1]; omega, h2⟩

/-- Witness for C9 at a concrete size and square. -/
theorem c9_roundtrip_witness :
    0 < 50 ∧
    squareOf true 50 (pixelOf true 50 ⟨⟨4, by omega⟩, ⟨3, by omega⟩⟩) =
      some ⟨⟨4, by omega⟩, ⟨3, by omega⟩⟩ :=
  ⟨by decide, c9_roundtrip true 50 ⟨⟨4, by omega⟩, ⟨3, by omega⟩⟩
    (by decide)⟩

/-- Claim C2: In Strict mode (skipValidation false), when a chess-illegal
move is requested via the move pipeline, the pipeline stops with no state
change: the Board is not published, no move-callback fires, and the turn
indicator is unchanged.  The first conjunct covers a rejection by raising
(chess.js v1 behavior), the second a null-returning rejection that leaves
the reported turn unchanged. -/
theorem c2_strict_rejection_no_change (σ : Type) (E : Engine σ)
    (hl : String) (st : PState σ) (f t : Sq) (promo : Option PieceSymbol) :
    (E.moveFn st.engine f t promo = .error () →
      countCallbacks (moveProg E false hl st f t promo).events = 0 ∧
      countPublishes (moveProg E false hl st f t promo).events = 0 ∧
      (moveProg E false hl st f t promo).state = st ∧
      (moveProg E false hl st f t promo).threw = true) ∧
    (∀ s2, E.moveFn st.engine f t promo = .ok (none, s2) →
      E.turnFn s2 = .ok st.turnVal →
      countCallbacks (moveProg E false hl st f t promo).events = 0 ∧
      countPublishes (moveProg E false hl st f t promo).events = 0 ∧
      (moveProg E false hl st f t promo).state.turnVal = st.turnVal ∧
      (moveProg E false hl st f t promo).threw = false) := by
  constructor
  · intro hmv
    refine ⟨?_, ?_, ?_, ?_⟩ <;>
      simp [moveProg, stage1, hmv, countCallbacks, countPublishes,
        isCallbackEv, isPublishEv]
  · intro s2 hmv ht
    refine ⟨?_, ?_, ?_, ?_⟩ <;>
      simp [moveProg, stage1, hmv, stage2, ht, stage3, countCallbacks,
        countPublishes, isCallbackEv, isPublishEv]

/-- Claim C3: In Permissive mode, when the rules engine rejects `applyMove`,
the pipeline fabricates a SyntheticMove carrying exactly the requested
from, to and promotion, with placeholder SAN `from-to`, and the engine's
internal board representation is not mutated in this fallback path: the
Board subsequently published equals the pre-move board. -/
theorem c3_synthetic_move_fallback (σ : Type) (E : Engine σ) (hl : String)
    (st : PState σ) (f t : Sq) (promo : Option PieceSymbol) (fs : String)
    (cs : ChessboardState) (b : Board)
    (hmv : E.moveFn st.engine f t promo = .error ())
    (hfen : E.fenFn st.engine = .ok fs)
    (hck : E.isCheckmateFn st.engine = .ok false)
    (hst : E.stateFn st.engine = .ok cs)
    (hb : E.boardFn st.engine = .ok b) :
    (moveProg E true hl st f t promo).events =
      [Event.applyMoveEv f t promo,
       Event.callbackEv (mkMock f t promo fs) cs promo.isSome,
       Event.publishEv b] ∧
    (moveProg E true hl st f t promo).state.engine = st.engine ∧
    (mkMock f t promo fs).san = squareName f ++ "-" ++ squareName t ∧
    (mkMock f t promo fs).fromSq = f ∧
    (mkMock f t promo fs).toSq = t ∧
    (mkMock f t promo fs).promotion = promo ∧
    (mkMock f t promo fs).before = fs ∧
    (mkMock f t promo fs).after = fs := by
  cases ht : E.turnFn st.engine with
  | ok tv =>
    refine ⟨?_, ?_, rfl, rfl, rfl, rfl, rfl, rfl⟩ <;>
      simp [moveProg, stage1, hmv, hfen, stage2, ht, stage3, hck, stage5,
        hst, stage6, hb]
  | error e =>
    refine ⟨?_, ?_, rfl, rfl, rfl, rfl, rfl, rfl⟩ <;>
      simp [moveProg, stage1, hmv, hfen, stage2, ht, stage3, hck, stage5,
        hst, stage6, hb]

/-- An empty 8×8 board matrix. -/
def emptyBoard : Board := List.replicate 8 (List.replicate 8 none)

/-- A concrete engine over `Nat` states used to instantiate the theorems:
every query succeeds with a benign default and `move` rejects by
raising. -/
def benignEngine : Engine Nat where
  moveFn := fun _ _ _ _ => .error ()
  turnFn := fun _ => .ok Player.w
  fenFn := fun _ => .ok emptyStr
  isCheckmateFn := fun _ => .ok false
  boardFn := fun _ => .ok emptyBoard
  getFn := fun _ _ => .ok none
  stateFn := fun _ => .ok defaultChessboardState
  undoFn := fun s => .ok s
  movesFn := fun _ _ => .ok []

/-- A concrete engine whose `move` rejects by returning `null`. -/
def nullMoveEngine : Engine Nat :=
  { benignEngine with moveFn := fun s _ _ _ => .ok (none, s) }

def pst0 : PState Nat :=
  { engine := 0, turnVal := Player.w, selectableSquares := [],
    selectedSquare := none }

def hlW : String := "yellow"

def sqE2 : Sq := ⟨⟨4, by omega⟩, ⟨1, by omega⟩⟩
def sqE4 : Sq := ⟨⟨4, by omega⟩, ⟨3, by omega⟩⟩
def sqE7 : Sq := ⟨⟨4, by omega⟩, ⟨6, by omega⟩⟩
def sqE8 : Sq := ⟨⟨4, by omega⟩, ⟨7, by omega⟩⟩

/-- Witness for C2: a raising rejection and a null rejection, both at a
concrete engine. -/
theorem c2_strict_rejection_no_change_witness :
    benignEngine.moveFn pst0.engine sqE2 sqE4 none = .error () ∧
    ((moveProg benignEngine false hlW pst0 sqE2 sqE4 none).state = pst0 ∧
     (moveProg benignEngine false hlW pst0 sqE2 sqE4 none).threw = true) ∧
    nullMoveEngine.moveFn pst0.engine sqE2 sqE4 none = .ok (none, 0) ∧
    ((moveProg nullMoveEngine false hlW pst0 sqE2 sqE4 none).state.turnVal =
       pst0.turnVal ∧
     (moveProg nullMoveEngine false hlW pst0 sqE2 sqE4 none).threw =
       false) := by
  have h1 := (c2_strict_rejection_no_change Nat benignEngine hlW pst0 sqE2
    sqE4 none).1 rfl
  have h2 := (c2_strict_rejection_no_change Nat nullMoveEngine hlW pst0 sqE2
    sqE4 none).2 0 rfl rfl
  exact ⟨rfl, ⟨h1.2.2.1, h1.2.2.2⟩, rfl, ⟨h2.2.2.1, h2.2.2.2⟩⟩

/-- Witness for C3 at a concrete engine whose `move` raises. -/
theorem c3_synthetic_move_fallback_witness :
    (moveProg benignEngine true hlW pst0 sqE2 sqE4 none).events =
      [Event.applyMoveEv sqE2 sqE4 none,
       Event.callbackEv (mkMock sqE2 sqE4 none emptyStr)
         defaultChessboardState false,
       Event.publishEv emptyBoard] ∧
    (moveProg benignEngine true hlW pst0 sqE2 sqE4 none).state.engine =
      pst0.engine := by
  have h := c3_synthetic_move_fallback Nat benignEngine hlW pst0 sqE2 sqE4
    none emptyStr defaultChessboardState emptyBoard rfl rfl rfl rfl rfl
  exact ⟨h.1, h.2.1⟩

/-- Witness for C8 with `Nat` continuations: overwrite keeps only the new
continuation, resolving invokes it once, the dropped one is not invoked. -/
theorem c8_promotion_slot_witness :
    (1 : Nat) ≠ 2 ∧
    (dialogOnSelect (showPromotionDialog Player.w 2
        (showPromotionDialog Player.w 1
          (DialogState.mk false none none))) PieceSymbol.q).1 =
      some (2, PieceSymbol.q) ∧
    (dialogOnSelect (showPromotionDialog Player.w 2
        (showPromotionDialog Player.w 1
          (DialogState.mk false none none))) PieceSymbol.q).1 ≠
      some (1, PieceSymbol.q) ∧
    (DialogState.mk true (some Player.w) (some (5 : Nat))).onSelect =
      some 5 ∧
    (dialogOnSelect (DialogState.mk true (some Player.w) (some (5 : Nat)))
      PieceSymbol.q).1 = some (5, PieceSymbol.q) := by
  have h := c8_promotion_slot Nat (DialogState.mk false none none) Player.w
    Player.w 1 2 PieceSymbol.q
  exact ⟨by decide, h.2.1, h.2.2.1 (by decide), rfl,
    (h.2.2.2 (DialogState.mk true (some Player.w) (some 5)) 5 rfl).1⟩

/-- Claim C6: `isPromoting from to` returns true iff the piece at `from` is
a pawn and `to` lies on the back rank appropriate to that pawn's color
(rank 8 for white, rank 1 for black); in Permissive mode a failure during
the piece lookup makes it return false instead of raising. -/
theorem c6_isPromoting_spec (σ : Type) (E : Engine σ) (skip : Bool)
    (psz : Nat) (s : σ) (f t : Sq) (hsz : 0 < psz) :
    (∀ b, E.boardFn s = .ok b →
      (isPromoting E skip psz s f t = .ok true ↔
        ∃ pc, boardPieceAt b f = some pc ∧ pc.ptype = PieceSymbol.p ∧
          ((t.rank.val = 7 ∧ pc.color = Player.w) ∨
           (t.rank.val = 0 ∧ pc.color = Player.b)))) ∧
    (skip = true → E.boardFn s = .error () →
      isPromoting E skip psz s f t = .ok false) := by
  constructor
  · intro b hb
    have h1 : f.file.val * psz / psz = f.file.val := Nat.mul_div_cancel _ hsz
    have h2 : (7 - f.rank.val) * psz / psz = 7 - f.rank.val :=
      Nat.mul_div_cancel _ hsz
    by_cases hc : ¬ t.rank.val = 7 ∧ ¬ t.rank.val = 0
    · simp only [isPromoting, if_pos hc]
      constructor
      · intro hcontra
        exact absurd (Except.ok.inj hcontra) (by simp)
      · rintro ⟨pc, _, _, hcol⟩
        rcases hcol with ⟨h7, _⟩ | ⟨h0, _⟩
        · exact absurd h7 hc.1
        · exact absurd h0 hc.2
    · simp only [isPromoting, if_neg hc, hb, toTranslation, pixelOf,
        Bool.false_eq_true, if_false]
      rw [h1, h2]
      cases hbp : (((b.get? (7 - f.rank.val)).bind
          fun row => row.get? f.file.val)).join with
      | none =>
        simp only [boardPieceAt, hbp]
        constructor
        · intro hcontra
          exact absurd (Except.ok.inj hcontra) (by simp)
        · rintro ⟨pc, hpc, _⟩
          exact absurd hpc (by simp)
      | some pc =>
        simp only [boardPieceAt, hbp, Except.ok.injEq, decide_eq_true_eq,
          Option.some.injEq]
        constructor
        · rintro ⟨hp, hcol⟩
          exact ⟨pc, rfl, hp, hcol⟩
        · rintro ⟨pc2, hpc2, hp, hcol⟩
          cases hpc2
          exact ⟨hp, hcol⟩
  · intro hskip hberr
    subst hskip
    by_cases hc : ¬ t.rank.val = 7 ∧ ¬ t.rank.val = 0
    · simp only [isPromoting, if_pos hc]
    · simp [isPromoting, if_neg hc, hberr]

/-- A board holding a single white pawn on e7 (row index 1, file index 4 of
the board matrix). -/
def pawnRow : List (Option Piece) :=
  [none, none, none, none, some ⟨Player.w, PieceSymbol.p⟩, none, none, none]

def pawnBoard : Board :=
  [List.replicate 8 none, pawnRow] ++ List.replicate 6 (List.replicate 8 none)

/-- Engine whose board matrix holds the white pawn on e7. -/
def pawnEngine : Engine Nat :=
  { benignEngine with boardFn := fun _ => .ok pawnBoard }

/-- Engine whose board query raises. -/
def boardErrEngine : Engine Nat :=
  { benignEngine with boardFn := fun _ => .error () }

/-- Witness for C6: a white pawn on e7 moving to e8 promotes, and a failing
board lookup under Permissive mode yields false. -/
theorem c6_isPromoting_spec_witness :
    0 < 50 ∧
    (isPromoting pawnEngine false 50 0 sqE7 sqE8 = .ok true ↔
      ∃ pc, boardPieceAt pawnBoard sqE7 = some pc ∧
        pc.ptype = PieceSymbol.p ∧
        ((sqE8.rank.val = 7 ∧ pc.color = Player.w) ∨
         (sqE8.rank.val = 0 ∧ pc.color = Player.b))) ∧
    isPromoting boardErrEngine true 50 0 sqE7 sqE8 = .ok false := by
  refine ⟨by decide, ?_, ?_⟩
  · exact (c6_isPromoting_spec Nat pawnEngine false 50 0 sqE7 sqE8
      (by decide)).1 pawnBoard rfl
  · exact (c6_isPromoting_spec Nat boardErrEngine true 50 0 sqE7 sqE8
      (by decide)).2 rfl rfl

section ScanLemmas

variable {σ : Type}

lemma scanFirst_ok_king (E : Engine σ) (s : σ) (c : Player)
    (l : List (Nat × Nat)) (sq : Sq)
    (h : scanFirst E s c l = .ok (some sq)) :
    ∃ pc, E.getFn s sq = .ok (some pc) ∧ pc.color = c ∧
      pc.ptype = PieceSymbol.k := by
  induction l with
  | nil => simp [scanFirst] at h
  | cons hd tl ih =>
    obtain ⟨x, y⟩ := hd
    simp only [scanFirst] at h
    cases hmk : mkSquare x y with
    | none =>
      rw [hmk] at h
      dsimp only at h
      exact ih h
    | some sq0 =>
      rw [hmk] at h
      dsimp only at h
      cases hg : E.getFn s sq0 with
      | error e =>
        rw [hg] at h
        dsimp only at h
        exact absurd h (by simp)
      | ok po =>
        rw [hg] at h
        cases po with
        | none =>
          dsimp only at h
          exact ih h
        | some pc0 =>
          dsimp only at h
          by_cases hcond : pc0.color = c ∧ pc0.ptype = PieceSymbol.k
          · rw [if_pos hcond] at h
            have hsq : sq0 = sq := by simpa using h
            subst hsq
            exact ⟨pc0, hg, hcond.1, hcond.2⟩
          · rw [if_neg hcond] at h
            exact ih h

lemma scanFirst_finds (E : Engine σ) (s : σ) (c : Player)
    (l : List (Nat × Nat)) (x y : Nat) (sq : Sq) (pc : Piece)
    (hget : ∀ q, E.getFn s q ≠ .error ())
    (hmem : (x, y) ∈ l) (hmk : mkSquare x y = some sq)
    (hpc : E.getFn s sq = .ok (some pc)) (hc : pc.color = c)
    (hk : pc.ptype = PieceSymbol.k) :
    ∃ r, scanFirst E s c l = .ok (some r) := by
  induction l with
  | nil => simp at hmem
  | cons hd tl ih =>
    obtain ⟨a, d⟩ := hd
    simp only [scanFirst]
    cases hmk2 : mkSquare a d with
    | none =>
      have hmem2 : (x, y) ∈ tl := by
        rcases List.mem_cons.mp hmem with heq | hm
        · cases heq
          rw [hmk2] at hmk
          exact absurd hmk (by simp)
        · exact hm
      dsimp only
      exact ih hmem2
    | some sq0 =>
      dsimp only
      cases hg : E.getFn s sq0 with
      | error e => exact absurd hg (hget sq0)
      | ok po =>
        cases po with
        | none =>
          dsimp only
          have hmem2 : (x, y) ∈ tl := by
            rcases List.mem_cons.mp hmem with heq | hm
            · cases heq
              rw [hmk2] at hmk
              have hsq : sq0 = sq := by simpa using hmk
              subst hsq
              rw [hg] at hpc
              exact absurd hpc (by simp)
            · exact hm
          exact ih hmem2
        | some pc0 =>
          dsimp only
          by_cases hcond : pc0.color = c ∧ pc0.ptype = PieceSymbol.k
          · rw [if_pos hcond]
            exact ⟨sq0, rfl⟩
          · have hmem2 : (x, y) ∈ tl := by
              rcases List.mem_cons.mp hmem with heq | hm
              · cases heq
                rw [hmk2] at hmk
                have hsq : sq0 = sq := by simpa using hmk
                subst hsq
                rw [hg] at hpc
                have hpceq : pc0 = pc := by simpa using hpc
                subst hpceq
                exact absurd ⟨hc, hk⟩ hcond
              · exact hm
            rw [if_neg hcond]
            exact ih hmem2

lemma mem_boardIndices (b : Board) (sq : Sq) (hlen : b.length = 8)
    (hrows : ∀ row ∈ b, row.length = 8) :
    (sq.file.val, 7 - sq.rank.val) ∈ boardIndices b ∧
    mkSquare sq.file.val (7 - sq.rank.val) = some sq := by
  obtain ⟨⟨fv, hf⟩, ⟨rv, hr⟩⟩ := sq
  have hx : fv < b.length := by rw [hlen]; exact hf
  constructor
  · cases hget2 : b.get? fv with
    | none =>
      rw [List.get?_eq_none] at hget2
      omega
    | some row =>
      have hrowmem : row ∈ b := List.get?_mem hget2
      have hrl : row.length = 8 := hrows row hrowmem
      refine List.mem_flatMap.mpr ⟨fv, List.mem_range.mpr hx, ?_⟩
      rw [hget2]
      refine List.mem_map.mpr ⟨7 - rv, List.mem_range.mpr ?_, rfl⟩
      omega
  · simp only [mkSquare]
    rw [dif_pos ⟨hf, by omega⟩]
    simp only [Option.some.injEq, Sq.mk.injEq, Fin.mk.injEq]
    exact ⟨trivial, by omega⟩

lemma findKing_finds (E : Engine σ) (s : σ) (c : Player) (skip : Bool)
    (b : Board) (sq : Sq) (pc : Piece)
    (hget : ∀ q, E.getFn s q ≠ .error ())
    (hb : E.boardFn s = .ok b) (hlen : b.length = 8)
    (hrows : ∀ row ∈ b, row.length = 8)
    (hpc : E.getFn s sq = .ok (some pc)) (hc : pc.color = c)
    (hk : pc.ptype = PieceSymbol.k) :
    ∃ r, findKing E skip s c = .ok (some r) := by
  obtain ⟨hmem, hmk⟩ := mem_boardIndices b sq hlen hrows
  obtain ⟨r, hr⟩ := scanFirst_finds E s c (boardIndices b) sq.file.val
    (7 - sq.rank.val) sq pc hget hmem hmk hpc hc hk
  refine ⟨r, ?_⟩
  simp [findKing, findKingBody, hb, hr]

lemma findKing_skip_ne_error (E : Engine σ) (s : σ) (c : Player) :
    findKing E true s c ≠ .error () := by
  cases h : findKingBody E s c <;> simp [findKing, h]

end ScanLemmas

section FilterLemmas

variable {σ : Type}

lemma stage6_filter_apply (E : Engine σ) (skip : Bool) (st : PState σ)
    (promo : Option PieceSymbol) (mv : MoveObj) (cs : ChessboardState) :
    (stage6 E skip st promo mv cs).events.filter isApplyMoveEv = [] := by
  cases h : E.boardFn st.engine <;>
    simp [stage6, h, isApplyMoveEv, List.filter]

lemma stage5_filter_apply (E : Engine σ) (skip : Bool) (st : PState σ)
    (promo : Option PieceSymbol) (mv : MoveObj) :
    (stage5 E skip st promo mv).events.filter isApplyMoveEv = [] := by
  cases h : E.stateFn st.engine with
  | ok cs => simp [stage5, h, stage6_filter_apply]
  | error e =>
    cases skip <;> simp [stage5, h, stage6_filter_apply, List.filter]

lemma stageCk_filter_apply (E : Engine σ) (skip : Bool) (hl : String)
    (st : PState σ) (promo : Option PieceSymbol) (mv : MoveObj) :
    (stageCk E skip hl st promo mv).events.filter isApplyMoveEv = [] := by
  cases h : E.turnFn st.engine with
  | error e => simp [stageCk, h, List.filter]
  | ok t2 =>
    cases h2 : findKing E skip st.engine
        (if t2 = Player.b then Player.b else Player.w) with
    | error e => simp [stageCk, h, h2, List.filter]
    | ok r =>
      cases r with
      | none => simp [stageCk, h, h2, List.filter]
      | some ksq =>
        simp [stageCk, h, h2, List.filter, isApplyMoveEv,
          stage5_filter_apply]

lemma stage3_filter_apply (E : Engine σ) (skip : Bool) (hl : String)
    (st : PState σ) (promo : Option PieceSymbol) (mv? : Option MoveObj) :
    (stage3 E skip hl st promo mv?).events.filter isApplyMoveEv = [] := by
  cases mv? with
  | none => simp [stage3, List.filter]
  | some mv =>
    cases h : E.isCheckmateFn st.engine with
    | error e =>
      cases skip <;>
        simp [stage3, h, stage5_filter_apply, List.filter]
    | ok ck =>
      cases ck <;>
        simp [stage3, h, stage5_filter_apply, stageCk_filter_apply]

lemma stage2_filter_apply (E : Engine σ) (skip : Bool) (hl : String)
    (st : PState σ) (promo : Option PieceSymbol) (mv? : Option MoveObj)
    (s1 : σ) :
    (stage2 E skip hl st promo mv? s1).events.filter isApplyMoveEv = [] := by
  cases h : E.turnFn s1 with
  | ok tv => simp [stage2, h, stage3_filter_apply]
  | error e =>
    cases skip <;> simp [stage2, h, stage3_filter_apply, List.filter]

lemma moveProg_filter_apply (E : Engine σ) (skip : Bool) (hl : String)
    (st : PState σ) (f t : Sq) (promo : Option PieceSymbol) :
    (moveProg E skip hl st f t promo).events.filter isApplyMoveEv =
      [Event.applyMoveEv f t promo] := by
  cases h : stage1 E skip st.engine f t promo with
  | error e => simp [moveProg, h, List.filter, isApplyMoveEv]
  | ok r =>
    obtain ⟨mv?, s1⟩ := r
    simp [moveProg, h, List.filter, isApplyMoveEv, stage2_filter_apply]

end FilterLemmas

/-- The condition under which `isPromoting` reports a promotion: the board
piece at `from` is a pawn whose color matches the back rank of `to`. -/
lemma isPromoting_eq_true (E : Engine σ) (skip : Bool) (psz : Nat) (s : σ)
    (f t : Sq) (b : Board) (pc : Piece) (hsz : 0 < psz)
    (hb : E.boardFn s = .ok b) (hpc : boardPieceAt b f = some pc)
    (hpawn : pc.ptype = PieceSymbol.p)
    (hrank : (t.rank.val = 7 ∧ pc.color = Player.w) ∨
             (t.rank.val = 0 ∧ pc.color = Player.b)) :
    isPromoting E skip psz s f t = .ok true := by
  have h1 : f.file.val * psz / psz = f.file.val := Nat.mul_div_cancel _ hsz
  have h2 : (7 - f.rank.val) * psz / psz = 7 - f.rank.val :=
    Nat.mul_div_cancel _ hsz
  have hc : ¬ (¬ t.rank.val = 7 ∧ ¬ t.rank.val = 0) := by
    rcases hrank with ⟨h7, _⟩ | ⟨h0, _⟩
    · simp [h7]
    · simp [h0]
  simp only [isPromoting, if_neg hc, hb, toTranslation, pixelOf,
    Bool.false_eq_true, if_false]
  rw [h1, h2]
  have hbp : (((b.get? (7 - f.rank.val)).bind
      fun row => row.get? f.file.val)).join = some pc := hpc
  rw [hbp]
  simp only [Except.ok.injEq, decide_eq_true_eq]
  exact ⟨hpawn, by tauto⟩

/-- Claim C4: For every `onMove(from, to)` where the moving piece is a pawn
reaching the last rank for its color, the pipeline suspends (hands a
continuation to the promotion dialog) before any engine `applyMove` call is
made, and resolving the dialog with a piece resumes exactly one `applyMove`
call carrying that piece as the promotion. -/
theorem c4_promotion_suspends (σ : Type) (E : Engine σ) (skip : Bool)
    (hl : String) (psz : Nat) (c : CompState σ) (f t : Sq) (pc : Piece)
    (b : Board) (ty : Player) (hsz : 0 < psz)
    (hb : E.boardFn c.ps.engine = .ok b)
    (hpc : boardPieceAt b f = some pc)
    (hpawn : pc.ptype = PieceSymbol.p)
    (hrank : (t.rank.val = 7 ∧ pc.color = Player.w) ∨
             (t.rank.val = 0 ∧ pc.color = Player.b))
    (hturn : E.turnFn c.ps.engine = .ok ty) :
    countApplyMoves (onMove E skip hl psz c f t).events = 0 ∧
    (onMove E skip hl psz c f t).cs.dialog.isDialogActive = true ∧
    ∀ choice : PieceSymbol,
      (resolveComp (onMove E skip hl psz c f t).cs choice).events.filter
          isApplyMoveEv =
        [Event.applyMoveEv f t (some choice)] := by
  have hip : isPromoting E skip psz c.ps.engine f t = .ok true :=
    isPromoting_eq_true E skip psz c.ps.engine f t b pc hsz hb hpc hpawn
      hrank
  refine ⟨?_, ?_, ?_⟩
  · simp [onMove, hip, hturn, countApplyMoves, List.countP_cons,
      isApplyMoveEv]
  · simp [onMove, hip, hturn, showPromotionDialog]
  · intro choice
    simp only [onMove, hip, hturn]
    simp only [resolveComp, dialogOnSelect, showPromotionDialog,
      Option.map_some]
    simp [List.filter_append, moveProg_filter_apply, List.filter,
      isApplyMoveEv]


section CallbackCountLemmas

variable {σ : Type}

lemma stage6_cb (E : Engine σ) (skip : Bool) (st : PState σ)
    (promo : Option PieceSymbol) (mv : MoveObj) (cs : ChessboardState) :
    countCallbacks (stage6 E skip st promo mv cs).events = 1 := by
  cases h : E.boardFn st.engine <;>
    simp [stage6, h, countCallbacks, List.countP_cons, isCallbackEv,
      isPublishEv]

lemma stage5_cb_skip (E : Engine σ) (st : PState σ)
    (promo : Option PieceSymbol) (mv : MoveObj) :
    countCallbacks (stage5 E true st promo mv).events = 1 := by
  cases h : E.stateFn st.engine <;> simp [stage5, h, stage6_cb]

lemma stageCk_cb_skip (E : Engine σ) (hl : String) (st : PState σ)
    (promo : Option PieceSymbol) (mv : MoveObj) (hE : EngineCoherent E)
    (hck : E.isCheckmateFn st.engine = .ok true) :
    countCallbacks (stageCk E true hl st promo mv).events = 1 := by
  cases ht2 : E.turnFn st.engine with
  | error e =>
    exact absurd (by cases e; exact ht2) (hE.turn_total st.engine)
  | ok t2 =>
    obtain ⟨b, hb, hlen, hrows⟩ := hE.ck_board st.engine hck
    obtain ⟨sq, kpc, hkpc, hkc, hkk⟩ := hE.ck_king st.engine t2 hck ht2
    have hif : (if t2 = Player.b then Player.b else Player.w) = t2 := by
      cases t2 <;> simp
    obtain ⟨r, hr⟩ := findKing_finds E st.engine t2 true b sq kpc
      (fun q => hE.get_total st.engine q) hb hlen hrows hkpc hkc hkk
    simp [stageCk, ht2, hif, hr, countCallbacks, List.countP_cons,
      isCallbackEv]
    have h5 := stage5_cb_skip E st promo mv
    simpa [countCallbacks] using h5

lemma stage3_cb_skip (E : Engine σ) (hl : String) (st : PState σ)
    (promo : Option PieceSymbol) (mv : MoveObj) (hE : EngineCoherent E) :
    countCallbacks (stage3 E true hl st promo (some mv)).events = 1 := by
  cases hck : E.isCheckmateFn st.engine with
  | error e => simp [stage3, hck, stage5_cb_skip]
  | ok ck =>
    cases ck with
    | false => simp [stage3, hck, stage5_cb_skip]
    | true =>
      simp only [stage3, hck]
      simpa using stageCk_cb_skip E hl st promo mv hE hck

lemma stage2_cb_skip (E : Engine σ) (hl : String) (st : PState σ)
    (promo : Option PieceSymbol) (mv : MoveObj) (s1 : σ)
    (hE : EngineCoherent E) :
    countCallbacks (stage2 E true hl st promo (some mv) s1).events = 1 := by
  cases ht : E.turnFn s1 with
  | ok tv =>
    simp only [stage2, ht]
    exact stage3_cb_skip E hl _ promo mv hE
  | error e =>
    simp only [stage2, ht]
    exact stage3_cb_skip E hl _ promo mv hE

end CallbackCountLemmas

/-- Claim C1: In Permissive mode (skipValidation true), for every call to
the move pipeline (`moveProgrammatically`) where the `from` square holds a
piece, exactly one invocation of the external move-callback occurs, even
when the rules engine rejects the move and a SyntheticMove fallback is
fabricated.  `EngineCoherent` packages the chess.js black-box facts the
spec relies on. -/
theorem c1_permissive_one_callback (σ : Type) (E : Engine σ) (hl : String)
    (st : PState σ) (f t : Sq) (promo : Option PieceSymbol) (pc : Piece)
    (hE : EngineCoherent E)
    (_hpiece : E.getFn st.engine f = .ok (some pc)) :
    countCallbacks (moveProg E true hl st f t promo).events = 1 := by
  cases hs1 : stage1 E true st.engine f t promo with
  | error e =>
    exfalso
    cases hm : E.moveFn st.engine f t promo with
    | ok r => simp [stage1, hm] at hs1
    | error e2 =>
      cases hf : E.fenFn st.engine with
      | ok fs => simp [stage1, hm, hf] at hs1
      | error e3 =>
        exact absurd (by cases e3; exact hf) (hE.fen_total st.engine)
  | ok r =>
    obtain ⟨mv?, s1⟩ := r
    have hsome : ∃ mv, mv? = some mv := by
      cases hm : E.moveFn st.engine f t promo with
      | ok r2 =>
        have heq : stage1 E true st.engine f t promo = .ok r2 := by
          simp [stage1, hm]
        rw [hs1] at heq
        have hr2 : (mv?, s1) = r2 := Except.ok.inj heq
        have hnn := hE.move_not_null st.engine f t promo r2 hm
        rw [← hr2] at hnn
        cases mv? with
        | none => exact absurd rfl hnn
        | some mv => exact ⟨mv, rfl⟩
      | error e2 =>
        cases hf : E.fenFn st.engine with
        | error e3 =>
          exact absurd (by cases e3; exact hf) (hE.fen_total st.engine)
        | ok fs =>
          have heq : stage1 E true st.engine f t promo =
              .ok (some (mkMock f t promo fs), st.engine) := by
            simp [stage1, hm, hf]
          rw [hs1] at heq
          have := Except.ok.inj heq
          exact ⟨mkMock f t promo fs, congrArg Prod.fst this⟩
    obtain ⟨mv, hmveq⟩ := hsome
    subst hmveq
    have h2 := stage2_cb_skip E hl st promo mv s1 hE
    simp only [moveProg, hs1]
    simpa [countCallbacks, List.countP_cons, isCallbackEv] using h2

/-- Claim C5: After a successful move that produces checkmate in Strict
mode, exactly one highlight request is issued and it targets the square of
the mated side's king (found by linear scan); in Permissive mode, a failed
king lookup results in zero highlight requests and no error is raised. -/
theorem c5_checkmate_highlight (σ : Type) (E : Engine σ) (hl : String)
    (st : PState σ) (f t : Sq) (promo : Option PieceSymbol) :
    (∀ m s1 t1 ksq cs b,
      E.moveFn st.engine f t promo = .ok (some m, s1) →
      E.turnFn s1 = .ok t1 →
      E.isCheckmateFn s1 = .ok true →
      findKing E false s1 t1 = .ok (some ksq) →
      E.stateFn s1 = .ok cs →
      E.boardFn s1 = .ok b →
      countHighlights (moveProg E false hl st f t promo).events = 1 ∧
      Event.highlightEv ksq (some hl) ∈
        (moveProg E false hl st f t promo).events ∧
      ∃ kpc, E.getFn s1 ksq = .ok (some kpc) ∧ kpc.color = t1 ∧
        kpc.ptype = PieceSymbol.k) ∧
    (∀ m s1 t1,
      E.moveFn st.engine f t promo = .ok (some m, s1) →
      E.turnFn s1 = .ok t1 →
      E.isCheckmateFn s1 = .ok true →
      findKing E true s1 t1 = .ok none →
      countHighlights (moveProg E true hl st f t promo).events = 0 ∧
      (moveProg E true hl st f t promo).threw = false) := by
  constructor
  · intro m s1 t1 ksq cs b hm ht hck hfk hst hb
    have hif : (if t1 = Player.b then Player.b else Player.w) = t1 := by
      cases t1 <;> simp
    have hscan : scanFirst E s1 t1 (boardIndices b) = .ok (some ksq) := by
      have hbody : findKingBody E s1 t1 = .ok (some ksq) := by
        cases hfb : findKingBody E s1 t1 with
        | ok r => rw [findKing, hfb] at hfk; simpa using hfk
        | error e =>
          cases e
          rw [findKing, hfb] at hfk
          simp at hfk
      rw [findKingBody, hb] at hbody
      exact hbody
    have hking := scanFirst_ok_king E s1 t1 (boardIndices b) ksq hscan
    have hs1 : stage1 E false st.engine f t promo = .ok (some m, s1) := by
      simp [stage1, hm]
    refine ⟨?_, ?_, hking⟩
    · simp [moveProg, hs1, stage2, ht, stage3, hck, stageCk, hif, hfk,
        stage5, hst, stage6, hb, countHighlights, List.countP_cons,
        isHighlightEv]
    · simp [moveProg, hs1, stage2, ht, stage3, hck, stageCk, hif, hfk,
        stage5, hst, stage6, hb]
  · intro m s1 t1 hm ht hck hfk
    have hif : (if t1 = Player.b then Player.b else Player.w) = t1 := by
      cases t1 <;> simp
    have hs1 : stage1 E true st.engine f t promo = .ok (some m, s1) := by
      simp [stage1, hm]
    constructor
    · simp [moveProg, hs1, stage2, ht, stage3, hck, stageCk, hif, hfk,
        countHighlights, List.countP_cons, isHighlightEv]
    · simp [moveProg, hs1, stage2, ht, stage3, hck, stageCk, hif, hfk]


/-- Engine for the C1 witness: every square holds a piece, `move`
rejects by raising (forcing the SyntheticMove fallback), and no checkmate
is ever reported. -/
def c1Engine : Engine Nat :=
  { benignEngine with
    getFn := fun _ _ => .ok (some ⟨Player.w, PieceSymbol.r⟩) }

lemma c1Engine_coherent : EngineCoherent c1Engine := by
  constructor
  · intro s
    simp [c1Engine, benignEngine]
  · intro s
    simp [c1Engine, benignEngine]
  · intro s q
    simp [c1Engine, benignEngine]
  · intro s f t promo r h
    simp [c1Engine, benignEngine] at h
  · intro s h
    simp [c1Engine, benignEngine] at h
  · intro s tv h
    simp [c1Engine, benignEngine] at h

/-- Witness for C1: the from square holds a rook, the engine rejects the
move, and exactly one callback fires. -/
theorem c1_permissive_one_callback_witness :
    c1Engine.getFn pst0.engine sqE2 =
      .ok (some ⟨Player.w, PieceSymbol.r⟩) ∧
    countCallbacks (moveProg c1Engine true hlW pst0 sqE2 sqE4 none).events =
      1 :=
  ⟨rfl, c1_permissive_one_callback Nat c1Engine hlW pst0 sqE2 sqE4 none
    ⟨Player.w, PieceSymbol.r⟩ c1Engine_coherent rfl⟩

/-- Combined component state for the C4 witness. -/
def comp0 : CompState Nat :=
  { ps := pst0, dialog := { isDialogActive := false, dtype := none,
                            onSelect := none } }

/-- Witness for C4: a white pawn on e7 moving to e8 suspends the pipeline
with no engine move call, and resolving with a queen resumes exactly one
`applyMove` with promotion queen. -/
theorem c4_promotion_suspends_witness :
    0 < 50 ∧
    countApplyMoves (onMove pawnEngine false hlW 50 comp0 sqE7
      sqE8).events = 0 ∧
    (onMove pawnEngine false hlW 50 comp0 sqE7 sqE8).cs.dialog.isDialogActive
      = true ∧
    (resolveComp (onMove pawnEngine false hlW 50 comp0 sqE7 sqE8).cs
        PieceSymbol.q).events.filter isApplyMoveEv =
      [Event.applyMoveEv sqE7 sqE8 (some PieceSymbol.q)] := by
  have h := c4_promotion_suspends Nat pawnEngine false hlW 50 comp0 sqE7
    sqE8 ⟨Player.w, PieceSymbol.p⟩ pawnBoard Player.w (by decide) rfl rfl
    rfl (Or.inl ⟨rfl, rfl⟩) rfl
  exact ⟨by decide, h.1, h.2.1, h.2.2 PieceSymbol.q⟩

/-- Engine for the strict half of the C5 witness: the move succeeds, the
resulting position is checkmate with the black king on e8. -/
def ckStrictEngine : Engine Nat :=
  { benignEngine with
    moveFn := fun s f2 t2 promo =>
      .ok (some (mkMock f2 t2 promo emptyStr), s + 1),
    turnFn := fun _ => .ok Player.b,
    isCheckmateFn := fun _ => .ok true,
    getFn := fun _ sq =>
      .ok (if sq = sqE8 then some ⟨Player.b, PieceSymbol.k⟩ else none) }

/-- Engine for the permissive half of the C5 witness: as above but every
`chess.get` raises, so the king lookup fails. -/
def ckPermEngine : Engine Nat :=
  { ckStrictEngine with getFn := fun _ _ => .error () }

/-- Witness for C5: strict checkmate highlights exactly the king square;
permissive failed lookup highlights nothing and does not throw. -/
theorem c5_checkmate_highlight_witness :
    (countHighlights (moveProg ckStrictEngine false hlW pst0 sqE2 sqE4
        none).events = 1 ∧
     Event.highlightEv sqE8 (some hlW) ∈
       (moveProg ckStrictEngine false hlW pst0 sqE2 sqE4 none).events) ∧
    (countHighlights (moveProg ckPermEngine true hlW pst0 sqE2 sqE4
        none).events = 0 ∧
     (moveProg ckPermEngine true hlW pst0 sqE2 sqE4 none).threw =
       false) := by
  have hA := (c5_checkmate_highlight Nat ckStrictEngine hlW pst0 sqE2 sqE4
    none).1 (mkMock sqE2 sqE4 none emptyStr) 1 Player.b sqE8
    defaultChessboardState emptyBoard rfl rfl rfl rfl rfl rfl
  have hB := (c5_checkmate_highlight Nat ckPermEngine hlW pst0 sqE2 sqE4
    none).2 (mkMock sqE2 sqE4 none emptyStr) 1 Player.b rfl rfl rfl rfl
  exact ⟨⟨hA.1, hA.2.1⟩, hB⟩


end Chessboard
